import Mathlib

/-!
A verification development for the fork-aware ledger execution core
(`runtime/src/bank.rs` and the data structures it drives).  Rust `u64`
arithmetic is embedded over `Nat`; the slots, heights, fees and lamport
amounts that the verified operations manipulate never overflow in the
regions the theorems speak about, and every explicit bit-width assumption
appears as a hypothesis.  Fallible operations return `Except`/`Option`.
-/

namespace SolanaBank

/-! ## Bit-level helpers used by `EpochSchedule`

`u64::trailing_zeros` and `u64::next_power_of_two` are embedded with an
explicit 64-step fuel so that they are structurally recursive and hence
evaluate inside the kernel.  Their agreement with the mathematical
`Nat.log`/`Nat.clog` functions on the `u64` domain is proved below.
-/

/-- `trailingZerosAux fuel n` counts the factors of two of `n`, up to
`fuel` of them.  With `fuel = 64` this is exactly `u64::trailing_zeros`
(in particular it returns 64 on input 0, the u64 bit width). -/
def trailingZerosAux : Nat → Nat → Nat
  | 0, _ => 0
  | fuel + 1, n => if n % 2 = 1 then 0 else trailingZerosAux fuel (n / 2) + 1

/-- `u64::trailing_zeros`. -/
def trailingZeros (n : Nat) : Nat := trailingZerosAux 64 n

/-- `nextPowerOfTwoAux n fuel acc` doubles `acc` until it reaches `n`. -/
def nextPowerOfTwoAux (n : Nat) : Nat → Nat → Nat
  | 0, acc => acc
  | fuel + 1, acc => if n ≤ acc then acc else nextPowerOfTwoAux n fuel (2 * acc)

/-- `u64::next_power_of_two`: the least power of two that is `≥ n`
(and `1` for `n ≤ 1`). -/
def nextPowerOfTwo (n : Nat) : Nat := nextPowerOfTwoAux n 64 1

/-- On powers of two below the bit width, `trailingZeros` is the exponent. -/
theorem trailingZerosAux_two_pow :
    ∀ fuel k : Nat, k < fuel → trailingZerosAux fuel (2 ^ k) = k := by
  intro fuel
  induction fuel with
  | zero => intro k hk; omega
  | succ f ih =>
    intro k hk
    cases k with
    | zero => simp [trailingZerosAux]
    | succ k' =>
      have hmod : 2 ^ (k' + 1) % 2 = 0 := by
        simp [Nat.pow_succ, Nat.mul_mod_left]
      have hdiv : 2 ^ (k' + 1) / 2 = 2 ^ k' := by
        rw [Nat.pow_succ]; exact Nat.mul_div_cancel _ (by norm_num)
      simp only [trailingZerosAux, hmod, hdiv]
      rw [if_neg (by omega), ih k' (by omega)]

theorem trailingZeros_two_pow (k : Nat) (hk : k < 64) :
    trailingZeros (2 ^ k) = k :=
  trailingZerosAux_two_pow 64 k hk

/-- `nextPowerOfTwoAux`, started at `2 ^ j` with enough fuel, lands on
`2 ^ Nat.clog 2 n`. -/
theorem nextPowerOfTwoAux_eq (n : Nat) :
    ∀ fuel j : Nat, j ≤ Nat.clog 2 n → n ≤ 2 ^ (j + fuel) →
      nextPowerOfTwoAux n fuel (2 ^ j) = 2 ^ Nat.clog 2 n := by
  intro fuel
  induction fuel with
  | zero =>
    intro j hj hn
    have : Nat.clog 2 n ≤ j := (Nat.le_pow_iff_clog_le (by norm_num)).1 (by simpa using hn)
    simp [nextPowerOfTwoAux]
    omega
  | succ f ih =>
    intro j hj hn
    by_cases hstop : n ≤ 2 ^ j
    · have hcj : Nat.clog 2 n ≤ j := (Nat.le_pow_iff_clog_le (by norm_num)).1 hstop
      have hj' : j = Nat.clog 2 n := le_antisymm hj hcj
      subst hj'
      simp only [nextPowerOfTwoAux, if_pos hstop]
    · have hlt : 2 ^ j < n := Nat.lt_of_not_le hstop
      have hj1 : j + 1 ≤ Nat.clog 2 n :=
        (Nat.pow_lt_iff_lt_clog (by norm_num)).1 hlt
      have hacc : 2 * 2 ^ j = 2 ^ (j + 1) := by
        rw [Nat.pow_succ, Nat.mul_comm]
      simp only [nextPowerOfTwoAux, if_neg hstop, hacc]
      exact ih (j + 1) hj1 (by rw [Nat.add_right_comm]; exact hn)

/-- On the `u64` domain `nextPowerOfTwo` is `2 ^ ⌈log₂ n⌉`. -/
theorem nextPowerOfTwo_eq (n : Nat) (h : n ≤ 2 ^ 64) :
    nextPowerOfTwo n = 2 ^ Nat.clog 2 n := by
  have h0 : (1 : Nat) = 2 ^ 0 := rfl
  unfold nextPowerOfTwo
  rw [h0]
  exact nextPowerOfTwoAux_eq n 64 0 (Nat.zero_le _) (by simpa using h)

theorem trailingZeros_nextPowerOfTwo (n : Nat) (h : n ≤ 2 ^ 63) :
    trailingZeros (nextPowerOfTwo n) = Nat.clog 2 n := by
  have hclog : Nat.clog 2 n ≤ 63 :=
    (Nat.le_pow_iff_clog_le (by norm_num)).1 (h.trans (by norm_num))
  rw [nextPowerOfTwo_eq n (h.trans (by norm_num)), trailingZeros_two_pow _ (by omega)]

/-! ## EpochSchedule (`bank.rs`, `impl EpochSchedule`) -/

structure EpochSchedule where
  slots_per_epoch : Nat
  stakers_slot_offset : Nat
  first_normal_epoch : Nat
  first_normal_slot : Nat
deriving DecidableEq, Repr

/-- `EpochSchedule::new`. -/
def EpochSchedule.new (slots_per_epoch stakers_slot_offset : Nat) (warmup : Bool) :
    EpochSchedule :=
  if warmup then
    let next_power_of_two := nextPowerOfTwo slots_per_epoch
    let log2_slots_per_epoch := trailingZeros next_power_of_two
    { slots_per_epoch := slots_per_epoch
      stakers_slot_offset := stakers_slot_offset
      first_normal_epoch := log2_slots_per_epoch
      first_normal_slot := next_power_of_two - 1 }
  else
    { slots_per_epoch := slots_per_epoch
      stakers_slot_offset := stakers_slot_offset
      first_normal_epoch := 0
      first_normal_slot := 0 }

/-- `EpochSchedule::get_epoch_and_slot_index`. -/
def EpochSchedule.get_epoch_and_slot_index (es : EpochSchedule) (slot : Nat) : Nat × Nat :=
  if slot < es.first_normal_slot then
    let epoch := if slot < 2 then slot else trailingZeros (nextPowerOfTwo (slot + 2)) - 1
    (epoch, slot - (2 ^ epoch - 1))
  else
    (es.first_normal_epoch + (slot - es.first_normal_slot) / es.slots_per_epoch,
      (slot - es.first_normal_slot) % es.slots_per_epoch)

/-- Kernel-computable floor base-two logarithm (64 fuel steps cover the
`u64` domain); used to render the claim's `⌊log2(s+2)⌋` literally. -/
def log2FloorAux : Nat → Nat → Nat
  | 0, _ => 0
  | fuel + 1, n => if n < 2 then 0 else log2FloorAux fuel (n / 2) + 1

def log2Floor (n : Nat) : Nat := log2FloorAux 64 n

/-- `log2Floor` agrees with the mathematical `Nat.log 2` on the `u64` domain. -/
theorem log2FloorAux_eq_log :
    ∀ fuel n : Nat, n < 2 ^ fuel → log2FloorAux fuel n = Nat.log 2 n := by
  intro fuel
  induction fuel with
  | zero => intro n hn; interval_cases n; simp [log2FloorAux]
  | succ f ih =>
    intro n hn
    by_cases h2 : n < 2
    · rw [log2FloorAux, if_pos h2, Nat.log_of_lt h2]
    · have hle : 2 ≤ n := Nat.not_lt.1 h2
      rw [log2FloorAux, if_neg h2, Nat.log_of_one_lt_of_le (by norm_num) hle,
        ih (n / 2) ((Nat.div_lt_iff_lt_mul (by norm_num)).2 (by rw [← Nat.pow_succ]; exact hn))]

theorem log2Floor_eq_log (n : Nat) (h : n < 2 ^ 64) : log2Floor n = Nat.log 2 n :=
  log2FloorAux_eq_log 64 n h

/-- The formula exactly as the claim words it: in warmup, epoch `0` for
`s < 2` and `⌊log2(s+2)⌋ − 1` otherwise, with offset `s − (2^epoch − 1)`;
in the normal region the quotient/remainder form. -/
def epochSlotIndexClaim (es : EpochSchedule) (slot : Nat) : Nat × Nat :=
  if slot < es.first_normal_slot then
    let epoch := if slot < 2 then 0 else log2Floor (slot + 2) - 1
    (epoch, slot - (2 ^ epoch - 1))
  else
    (es.first_normal_epoch + (slot - es.first_normal_slot) / es.slots_per_epoch,
      (slot - es.first_normal_slot) % es.slots_per_epoch)

/-- The amended formula: in warmup, epoch `s` for `s < 2` and
`⌈log2(s+2)⌉ − 1` otherwise (the two cases agree), offset unchanged. -/
def epochSlotIndexSpec (es : EpochSchedule) (slot : Nat) : Nat × Nat :=
  if slot < es.first_normal_slot then
    let epoch := if slot < 2 then slot else Nat.clog 2 (slot + 2) - 1
    (epoch, slot - (2 ^ epoch - 1))
  else
    (es.first_normal_epoch + (slot - es.first_normal_slot) / es.slots_per_epoch,
      (slot - es.first_normal_slot) % es.slots_per_epoch)

/-! ### Epoch-schedule lemmas -/

theorem clog2_succ_le (m : Nat) (hm : 1 ≤ m) :
    Nat.clog 2 (m + 1) ≤ Nat.clog 2 m + 1 := by
  have hle : m ≤ 2 ^ Nat.clog 2 m := Nat.le_pow_clog (by norm_num) m
  have : m + 1 ≤ 2 ^ (Nat.clog 2 m + 1) := by
    have h2 : 2 ^ (Nat.clog 2 m + 1) = 2 ^ Nat.clog 2 m + 2 ^ Nat.clog 2 m := by
      rw [Nat.pow_succ]; ring
    omega
  exact (Nat.le_pow_iff_clog_le (by norm_num)).1 this

theorem div_succ_cases (a n : Nat) : (a + 1) / n = a / n ∨ (a + 1) / n = a / n + 1 := by
  rw [Nat.succ_div]
  by_cases h : n ∣ a + 1 <;> simp [h]

/-- The warmup-branch epoch expression of the source equals
`⌈log₂(slot+2)⌉ − 1` throughout the `u64` domain. -/
theorem warmup_epoch_eq (slot : Nat) (h : slot + 2 ≤ 2 ^ 63) :
    (if slot < 2 then slot else trailingZeros (nextPowerOfTwo (slot + 2)) - 1)
      = Nat.clog 2 (slot + 2) - 1 := by
  have h22 : Nat.clog 2 2 = 1 := Nat.clog_eq_one (by norm_num) (by norm_num)
  by_cases h2 : slot < 2
  · rw [if_pos h2]
    interval_cases slot
    · rw [h22]
    · have h23 : Nat.clog 2 3 = 2 := by
        rw [Nat.clog_of_two_le (by norm_num) (by norm_num)]
        norm_num [h22]
      rw [h23]
  · rw [if_neg h2, trailingZeros_nextPowerOfTwo _ h]

/-- Single-slot epoch step for any schedule of the shape produced by
`EpochSchedule::new`: `first_normal_slot = 2 ^ first_normal_epoch − 1`. -/
theorem epoch_step_general (spe sso K : Nat) (hK : K ≤ 63) (s : Nat) :
    ((EpochSchedule.mk spe sso K (2 ^ K - 1)).get_epoch_and_slot_index (s + 1)).1 =
      ((EpochSchedule.mk spe sso K (2 ^ K - 1)).get_epoch_and_slot_index s).1 ∨
    ((EpochSchedule.mk spe sso K (2 ^ K - 1)).get_epoch_and_slot_index (s + 1)).1 =
      ((EpochSchedule.mk spe sso K (2 ^ K - 1)).get_epoch_and_slot_index s).1 + 1 := by
  have hKpow : 2 ^ K ≤ 2 ^ 63 := Nat.pow_le_pow_right (by norm_num) hK
  by_cases hs1 : s + 1 < 2 ^ K - 1
  · -- both slots in the warmup region
    have hs : s < 2 ^ K - 1 := by omega
    have hb2 : s + 2 ≤ 2 ^ 63 := by omega
    have hb3 : s + 1 + 2 ≤ 2 ^ 63 := by omega
    simp only [EpochSchedule.get_epoch_and_slot_index, if_pos hs1, if_pos hs]
    rw [warmup_epoch_eq s hb2, warmup_epoch_eq (s + 1) hb3]
    have hpos : 1 ≤ Nat.clog 2 (s + 2) := Nat.clog_pos (by norm_num) (by omega)
    have hmono : Nat.clog 2 (s + 2) ≤ Nat.clog 2 (s + 1 + 2) :=
      Nat.clog_mono_right 2 (by omega)
    have hstep : Nat.clog 2 (s + 1 + 2) ≤ Nat.clog 2 (s + 2) + 1 := by
      have h := clog2_succ_le (s + 2) (by omega)
      rwa [show s + 2 + 1 = s + 1 + 2 by omega] at h
    omega
  · by_cases hs : s < 2 ^ K - 1
    · -- boundary: s is the last warmup slot, s + 1 the first normal one
      have hsval : s + 2 = 2 ^ K := by omega
      have hb2 : s + 2 ≤ 2 ^ 63 := by omega
      have hK1 : 1 ≤ K := by
        by_contra hc
        have : K = 0 := by omega
        subst this
        simp at hs
      simp only [EpochSchedule.get_epoch_and_slot_index, if_neg hs1, if_pos hs]
      rw [warmup_epoch_eq s hb2, hsval, Nat.clog_pow 2 K (by norm_num)]
      have hfns : s + 1 - (2 ^ K - 1) = 0 := by omega
      rw [hfns]
      simp
      omega
    · -- both slots in the normal region
      simp only [EpochSchedule.get_epoch_and_slot_index, if_neg hs1, if_neg hs]
      have hrw : s + 1 - (2 ^ K - 1) = (s - (2 ^ K - 1)) + 1 := by omega
      rw [hrw]
      rcases div_succ_cases (s - (2 ^ K - 1)) spe with h | h
      · left; simp [h]
      · right; simp [h]; omega

/-- C4 counterexample: with the warmup schedule for `slots_per_epoch = 8`,
the source puts slot 1 in epoch 1 with offset 0, while the claim's formula
(`epoch = 0` for `s < 2`, offset `s − (2^epoch − 1)`) yields epoch 0,
offset 1. -/
theorem epoch_and_slot_index_claim_counterexample :
    (EpochSchedule.new 8 0 true).get_epoch_and_slot_index 1 ≠
      epochSlotIndexClaim (EpochSchedule.new 8 0 true) 1 := by decide

/-- C4 (amended): for every schedule and every slot in the `u64` domain,
`get_epoch_and_slot_index` computes: in the warmup region, `epoch = s` for
`s < 2`, else `epoch = ⌈log2(s+2)⌉ − 1`, with `offset = s − (2^epoch − 1)`;
in the normal region, `epoch = first_normal_epoch + (s − first_normal_slot)
/ slots_per_epoch` and `offset = (s − first_normal_slot) mod
slots_per_epoch`. -/
theorem epoch_and_slot_index_matches_amended_spec (es : EpochSchedule) (slot : Nat)
    (h : slot + 2 ≤ 2 ^ 63) :
    es.get_epoch_and_slot_index slot = epochSlotIndexSpec es slot := by
  unfold EpochSchedule.get_epoch_and_slot_index epochSlotIndexSpec
  by_cases hw : slot < es.first_normal_slot
  · rw [if_pos hw, if_pos hw]
    have heq := warmup_epoch_eq slot h
    by_cases h2 : slot < 2
    · simp [h2]
    · rw [if_neg h2] at heq ⊢
      rw [heq]
      rw [if_neg h2]
  · rw [if_neg hw, if_neg hw]

theorem epoch_and_slot_index_matches_amended_spec_witness :
    1 + 2 ≤ 2 ^ 63 ∧
      (EpochSchedule.new 8 0 true).get_epoch_and_slot_index 1 =
        epochSlotIndexSpec (EpochSchedule.new 8 0 true) 1 :=
  ⟨by norm_num,
    epoch_and_slot_index_matches_amended_spec (EpochSchedule.new 8 0 true) 1 (by norm_num)⟩

/-- C5: across consecutive slots, the epoch computed by
`get_epoch_and_slot_index` on a schedule built by `EpochSchedule::new`
either stays the same or grows by exactly one. -/
theorem epoch_step_at_most_one (spe sso : Nat) (warmup : Bool) (s : Nat)
    (hspe : spe ≤ 2 ^ 63) :
    ((EpochSchedule.new spe sso warmup).get_epoch_and_slot_index (s + 1)).1 =
      ((EpochSchedule.new spe sso warmup).get_epoch_and_slot_index s).1 ∨
    ((EpochSchedule.new spe sso warmup).get_epoch_and_slot_index (s + 1)).1 =
      ((EpochSchedule.new spe sso warmup).get_epoch_and_slot_index s).1 + 1 := by
  have hclog : Nat.clog 2 spe ≤ 63 :=
    (Nat.le_pow_iff_clog_le (by norm_num)).1 (hspe.trans (by norm_num))
  cases warmup with
  | false =>
    have hes : EpochSchedule.new spe sso false = EpochSchedule.mk spe sso 0 (2 ^ 0 - 1) := by
      simp [EpochSchedule.new]
    rw [hes]
    exact epoch_step_general spe sso 0 (by norm_num) s
  | true =>
    have hes : EpochSchedule.new spe sso true =
        EpochSchedule.mk spe sso (Nat.clog 2 spe) (2 ^ Nat.clog 2 spe - 1) := by
      have h1 : nextPowerOfTwo spe = 2 ^ Nat.clog 2 spe :=
        nextPowerOfTwo_eq spe (hspe.trans (by norm_num))
      have h3 : trailingZeros (2 ^ Nat.clog 2 spe) = Nat.clog 2 spe :=
        trailingZeros_two_pow _ (by omega)
      simp [EpochSchedule.new, h1, h3]
    rw [hes]
    exact epoch_step_general spe sso (Nat.clog 2 spe) hclog s

theorem epoch_step_at_most_one_witness :
    (8 : Nat) ≤ 2 ^ 63 ∧
      (((EpochSchedule.new 8 0 true).get_epoch_and_slot_index (6 + 1)).1 =
          ((EpochSchedule.new 8 0 true).get_epoch_and_slot_index 6).1 ∨
        ((EpochSchedule.new 8 0 true).get_epoch_and_slot_index (6 + 1)).1 =
          ((EpochSchedule.new 8 0 true).get_epoch_and_slot_index 6).1 + 1) :=
  ⟨by norm_num, epoch_step_at_most_one 8 0 true 6 (by norm_num)⟩

/-! ## Core data model (`sdk` types, §3 of the spec)

`Pubkey`, `Hash` and `Signature` are opaque identifiers; `Nat` stands in
for all three.  `Hash` 0 plays `Hash::default()`, the sentinel an unfrozen
bank stores. -/

abbrev Pubkey := Nat
abbrev Hash := Nat
abbrev Signature := Nat

structure Account where
  lamports : Nat
  data : List Nat
  owner : Pubkey
  executable : Bool
deriving DecidableEq, Repr

/-- `Account::default()`. -/
def defaultAccount : Account := { lamports := 0, data := [], owner := 0, executable := false }

/-- `TransactionError` (transaction-level error taxonomy, §7).  The cause
payload of `InstructionError` is opaque to the core and embedded as a
numeric code. -/
inductive TransactionError where
  | AccountInUse
  | AccountLoadedTwice
  | AccountNotFound
  | BlockhashNotFound
  | DuplicateSignature
  | InsufficientFundsForFee
  | MissingSignatureForFee
  | InstructionError (index : Nat) (cause : Nat)
deriving DecidableEq, Repr

/-- `Result<(), TransactionError>`. -/
inductive TxResult where
  | ok
  | err (e : TransactionError)
deriving DecidableEq, Repr

/-- `Transaction` (§3).  Compiled instruction payloads are opaque to every
claim here and carried as numbers. -/
structure Transaction where
  account_keys : List Pubkey
  recent_blockhash : Hash
  fee : Nat
  program_ids : List Pubkey
  instructions : List Nat
  signatures : List Signature
deriving DecidableEq, Repr

/-- The account store as seen from one fork.  Modelled from the spec:
`Accounts::load_slow` walks the parent chain until the key is found
(§4.4); from a single bank's standpoint that chained read is one partial
map, and `store_slow` overrides one key of it. -/
abbrev AccountMap := Pubkey → Option Account

def storeAccount (m : AccountMap) (pk : Pubkey) (a : Account) : AccountMap :=
  fun k => if k = pk then some a else m k

/-! ## StatusCache

Modelled from the spec (§4.2/§3): the per-bank cache is a set of
recently-seen signatures partitioned into tick-window shards (head shard
active) plus a map from signature to its stored failure. -/

structure StatusCache where
  shards : List (List Signature)
  failures : List (Signature × TransactionError)
deriving DecidableEq, Repr

/-- Modelled from the spec: shard-retention count of the rotation; its
value is immaterial to every claim here. -/
def MAX_CACHE_SHARDS : Nat := 32

/-- Modelled from the spec: `StatusCache::add` inserts the signature into
the active shard. -/
def StatusCache.add (sc : StatusCache) (sig : Signature) : StatusCache :=
  match sc.shards with
  | [] => { sc with shards := [[sig]] }
  | s :: rest => { sc with shards := (sig :: s) :: rest }

/-- Modelled from the spec: `StatusCache::save_failure_status` records an
error for a later `get_signature_status`. -/
def StatusCache.save_failure_status (sc : StatusCache) (sig : Signature)
    (e : TransactionError) : StatusCache :=
  { sc with failures := (sig, e) :: sc.failures }

/-- Modelled from the spec: `StatusCache::new_cache` opens a fresh shard
and rotates the oldest ones out. -/
def StatusCache.new_cache (sc : StatusCache) (_h : Hash) : StatusCache :=
  { sc with shards := ([] :: sc.shards).take MAX_CACHE_SHARDS }

/-- Modelled from the spec: a signature is "seen" iff some shard holds it. -/
def StatusCache.has_signature (sc : StatusCache) (sig : Signature) : Bool :=
  sc.shards.any fun s => s.contains sig

/-- Modelled from the spec: a seen signature reports its stored failure,
or success when none is stored; an unseen signature reports nothing. -/
def StatusCache.get_signature_status (sc : StatusCache) (sig : Signature) :
    Option TxResult :=
  if sc.has_signature sig then
    match sc.failures.lookup sig with
    | some e => some (.err e)
    | none => some .ok
  else none

/-! ## BlockhashQueue

Modelled from the spec (§4.1/§3): insertion-ordered map from blockhash to
registration height, capacity `MAX_RECENT_BLOCKHASHES`. -/

/-- Modelled from the spec: the queue capacity ("e.g., 300"); a constant
of `sdk/timing.rs`, which is outside the source subset. -/
def MAX_RECENT_BLOCKHASHES : Nat := 300

/-- Modelled from the spec: ticks per wall-clock second, the shard
rotation modulus; a constant of `sdk/timing.rs`, outside the source
subset. -/
def NUM_TICKS_PER_SECOND : Nat := 10

structure BlockhashQueue where
  last_hash : Option Hash
  hash_height : Nat
  ages : List (Hash × Nat)
deriving DecidableEq, Repr

/-- Modelled from the spec: `BlockhashQueue::register_hash` advances the
height, records the hash at it, and evicts the oldest entries beyond
capacity. -/
def BlockhashQueue.register_hash (q : BlockhashQueue) (h : Hash) : BlockhashQueue :=
  { last_hash := some h
    hash_height := q.hash_height + 1
    ages := ((h, q.hash_height + 1) :: q.ages).take MAX_RECENT_BLOCKHASHES }

/-! ## Bank (single-fork view)

One bank, viewed without its parents: the chained account/status reads are
the flat maps above.  The two fields `has_accounts_delta` and
`accounts_delta_hash` are modelled from the spec: they stand for
`Accounts::has_accounts(id)` and `Accounts::hash_internal_state(id)` of
`accounts.rs`, which is outside the source subset. -/

structure Bank where
  accounts : AccountMap
  collector_id : Pubkey
  status_cache : StatusCache
  blockhash_queue : BlockhashQueue
  tick_height : Nat
  ticks_per_slot : Nat
  is_delta : Bool
  hash : Hash
  parent_hash : Hash
  has_accounts_delta : Bool
  accounts_delta_hash : Nat

/-- `Bank::get_account` (a `load_slow` through the fork view). -/
def Bank.get_account (b : Bank) (pk : Pubkey) : Option Account := b.accounts pk

/-- `Bank::read_balance`. -/
def Bank.read_balance (account : Account) : Nat := account.lamports

/-- `Bank::get_balance`: `get_account(pk).map(read_balance).unwrap_or(0)`. -/
def Bank.get_balance (b : Bank) (pk : Pubkey) : Nat :=
  ((b.get_account pk).map Bank.read_balance).getD 0

/-- `Bank::withdraw`.  Returns the per-call `Result` together with the
bank state (unchanged on failure). -/
def Bank.withdraw (b : Bank) (pk : Pubkey) (lamports : Nat) : TxResult × Bank :=
  match b.get_account pk with
  | some account =>
      if lamports > account.lamports then (.err .InsufficientFundsForFee, b)
      else
        (.ok,
          { b with accounts :=
              storeAccount b.accounts pk { account with lamports := account.lamports - lamports } })
  | none => (.err .AccountNotFound, b)

/-- `Bank::deposit` (creates the account when absent, as
`unwrap_or_default` does). -/
def Bank.deposit (b : Bank) (pk : Pubkey) (lamports : Nat) : Bank :=
  let account := (b.get_account pk).getD defaultAccount
  { b with accounts :=
      storeAccount b.accounts pk { account with lamports := account.lamports + lamports } }

/-- One iteration of the `Bank::update_transaction_statuses` loop: `Ok`
with a signature adds it; `BlockhashNotFound`, `DuplicateSignature` and
`AccountNotFound` record nothing; every other error with a signature adds
it and saves the failure.  The source indexes `tx.signatures[0]` under a
nonemptiness guard, matched here. -/
def recordTxStatus (sc : StatusCache) (tx : Transaction) (res : TxResult) : StatusCache :=
  match res, tx.signatures with
  | .ok, sig :: _ => sc.add sig
  | .ok, [] => sc
  | .err .BlockhashNotFound, _ => sc
  | .err .DuplicateSignature, _ => sc
  | .err .AccountNotFound, _ => sc
  | .err e, sig :: _ => (sc.add sig).save_failure_status sig e
  | .err _, [] => sc

/-- `Bank::update_transaction_statuses` (the loop over `txs.zip(res)`;
the source indexes `res[i]`, defined since committed batches carry one
result per transaction). -/
def Bank.update_transaction_statuses (b : Bank) (txs : List Transaction)
    (res : List TxResult) : Bank :=
  { b with status_cache :=
      (txs.zip res).foldl (fun sc p => recordTxStatus sc p.1 p.2) b.status_cache }

/-- The results that `update_transaction_statuses` records: everything
except the three early-failure kinds. -/
def recordable : TxResult → Bool
  | .err .BlockhashNotFound => false
  | .err .DuplicateSignature => false
  | .err .AccountNotFound => false
  | _ => true

/-- The loop body of `Bank::filter_program_errors_and_collect_fee`:
threads the bank (whose accounts each successful `withdraw` updates) and
the fee accumulator through the transaction list.  The source indexes
`tx.account_keys[0]` (the fee payer); committed transactions always carry
at least one key, and `headD 0` renders that indexing. -/
def filterFeesAux (b : Bank) (fees : Nat) :
    List (Transaction × TxResult) → Bank × Nat × List TxResult
  | [] => (b, fees, [])
  | (tx, res) :: rest =>
    match res with
    | .err (.InstructionError _ _) =>
        match b.withdraw (tx.account_keys.headD 0) tx.fee with
        | (.ok, b') =>
            let (b'', fees', out) := filterFeesAux b' (fees + tx.fee) rest
            (b'', fees', .ok :: out)
        | (.err e, b') =>
            let (b'', fees', out) := filterFeesAux b' fees rest
            (b'', fees', .err e :: out)
    | .ok =>
        let (b'', fees', out) := filterFeesAux b (fees + tx.fee) rest
        (b'', fees', .ok :: out)
    | .err e =>
        let (b'', fees', out) := filterFeesAux b fees rest
        (b'', fees', .err e :: out)

/-- `Bank::filter_program_errors_and_collect_fee`: charge the fee payer
even on `InstructionError` (via `withdraw`, whose failure becomes the
transaction's result), accumulate fees of `Ok` and fee-charged
transactions, deposit the total to the collector. -/
def Bank.filter_program_errors_and_collect_fee (b : Bank) (txs : List Transaction)
    (executed : List TxResult) : Bank × List TxResult :=
  let (b', fees, results) := filterFeesAux b 0 (txs.zip executed)
  (b'.deposit b'.collector_id fees, results)

/-- A transaction's loaded account set, parallel to its `account_keys`. -/
abbrev Loaded := List Account

/-- Modelled from the spec: `Accounts::store_accounts` (§4.4, in
`accounts.rs`, outside the source subset) writes back the account
snapshots of transactions whose execution result is `Ok`; transactions
that failed execution write nothing here (their fee debit happens in
`filter_program_errors_and_collect_fee`). -/
def Bank.store_accounts (b : Bank) (txs : List Transaction) (executed : List TxResult)
    (loaded : List (Option Loaded)) : Bank :=
  let newAccounts :=
    (txs.zip (executed.zip loaded)).foldl
      (fun m trl =>
        match trl with
        | (tx, (.ok, some accs)) =>
            (tx.account_keys.zip accs).foldl (fun m p => storeAccount m p.1 p.2) m
        | _ => m)
      b.accounts
  { b with accounts := newAccounts }

/-- `Bank::commit_transactions`: set `is_delta`, store accounts, record
statuses, then filter program errors and collect fees; the value returned
to the caller is the filtered result list. -/
def Bank.commit_transactions (b : Bank) (txs : List Transaction)
    (loaded : List (Option Loaded)) (executed : List TxResult) :
    Bank × List TxResult :=
  let b1 := { b with is_delta := true }
  let b2 := b1.store_accounts txs executed loaded
  let b3 := b2.update_transaction_statuses txs executed
  b3.filter_program_errors_and_collect_fee txs executed

/-- `Bank::get_signature_status` for a bank without parents (the cache
chain is the bank's own cache). -/
def Bank.get_signature_status (b : Bank) (sig : Signature) : Option TxResult :=
  b.status_cache.get_signature_status sig

/-- `Bank::register_tick`: increment `tick_height`; at the last tick of a
slot register the hash into the blockhash queue; once per second rotate a
new status-cache shard. -/
def Bank.register_tick (b : Bank) (h : Hash) : Bank :=
  let current_tick_height := b.tick_height + 1
  let b1 := { b with tick_height := current_tick_height }
  let b2 :=
    if current_tick_height % b1.ticks_per_slot = b1.ticks_per_slot - 1 then
      { b1 with blockhash_queue := b1.blockhash_queue.register_hash h }
    else b1
  if current_tick_height % NUM_TICKS_PER_SECOND = 0 then
    { b2 with status_cache := b2.status_cache.new_cache h }
  else b2

/-- Modelled from the spec: `extend_and_hash` (SHA-256 based, in the sdk,
outside the source subset).  An arbitrary fixed injection stands in; no
theorem relies on its values. -/
def extend_and_hash (h : Hash) (v : Nat) : Hash := Nat.pair h v

/-- `Bank::hash_internal_state`: the parent hash when this fork wrote no
accounts, otherwise the parent hash combined with the fork's account
delta hash. -/
def Bank.hash_internal_state (b : Bank) : Hash :=
  if !b.has_accounts_delta then b.parent_hash
  else extend_and_hash b.parent_hash b.accounts_delta_hash

/-- `Bank::is_frozen`: the hash differs from `Hash::default()`. -/
def Bank.is_frozen (b : Bank) : Bool := b.hash != 0

/-- `Bank::freeze`: one-way, idempotent — compute and store
`hash_internal_state` only while the stored hash is still the default. -/
def Bank.freeze (b : Bank) : Bank :=
  if b.hash = 0 then { b with hash := b.hash_internal_state } else b

/-! ## Fixtures used by witnesses and counterexamples -/

def exampleAccounts : AccountMap := fun k =>
  if k = 5 then some { lamports := 7, data := [], owner := 0, executable := false }
  else if k = 6 then some { lamports := 0, data := [], owner := 0, executable := false }
  else none

def exampleBank : Bank :=
  { accounts := exampleAccounts
    collector_id := 2
    status_cache := { shards := [[]], failures := [] }
    blockhash_queue := { last_hash := none, hash_height := 0, ages := [] }
    tick_height := 0
    ticks_per_slot := 4
    is_delta := false
    hash := 0
    parent_hash := 3
    has_accounts_delta := true
    accounts_delta_hash := 11 }

def exampleTx : Transaction :=
  { account_keys := [5], recent_blockhash := 0, fee := 1, program_ids := []
    instructions := [], signatures := [9] }

def cexTx : Transaction :=
  { account_keys := [6], recent_blockhash := 0, fee := 1, program_ids := []
    instructions := [], signatures := [8] }

/-! ## C10: `get_balance` -/

/-- C10: `get_balance` never fails: when `get_account` finds the account
the balance is its lamports, and when no account exists the balance is 0 —
so a missing account and an existing zero-lamport account are
indistinguishable through `get_balance`. -/
theorem get_balance_total (b : Bank) (pk : Pubkey) :
    (∀ a, b.get_account pk = some a → b.get_balance pk = a.lamports) ∧
    (b.get_account pk = none → b.get_balance pk = 0) := by
  constructor
  · intro a ha
    simp [Bank.get_balance, ha, Bank.read_balance]
  · intro ha
    simp [Bank.get_balance, ha]

theorem get_balance_total_witness :
    exampleBank.get_balance 5 = 7 ∧ exampleBank.get_balance 9 = 0 ∧
      exampleBank.get_balance 6 = 0 :=
  ⟨(get_balance_total exampleBank 5).1 _ rfl,
    (get_balance_total exampleBank 9).2 rfl,
    (get_balance_total exampleBank 6).1 _ rfl⟩

/-! ## C6: freeze idempotence -/

theorem freeze_freeze (b : Bank) : b.freeze.freeze = b.freeze := by
  unfold Bank.freeze
  by_cases hb : b.hash = 0
  · rw [if_pos hb]
    by_cases h2 : ({ b with hash := b.hash_internal_state } : Bank).hash = 0
    · rw [if_pos h2]
      rfl
    · rw [if_neg h2]
  · rw [if_neg hb, if_neg hb]

theorem freeze_iterate (b : Bank) (m : Nat) : Bank.freeze^[m] b.freeze = b.freeze := by
  induction m with
  | zero => rfl
  | succ k ih => rw [Function.iterate_succ_apply, freeze_freeze, ih]

/-- C6: calling `freeze` any number of times yields the same `hash()`; on
an unfrozen bank the first call stores `hash_internal_state()`, and on a
frozen bank `freeze` is the identity — the hash moves from unset to set
exactly once. -/
theorem freeze_idempotent (b : Bank) (n : Nat) (hn : 1 ≤ n) :
    (Bank.freeze^[n] b).hash = b.freeze.hash ∧
    (b.hash = 0 → b.freeze.hash = b.hash_internal_state) ∧
    (b.hash ≠ 0 → b.freeze = b) := by
  refine ⟨?_, ?_, ?_⟩
  · obtain ⟨m, rfl⟩ : ∃ m, n = m + 1 := ⟨n - 1, by omega⟩
    rw [Function.iterate_succ_apply, freeze_iterate]
  · intro h0
    unfold Bank.freeze
    rw [if_pos h0]
  · intro hne
    unfold Bank.freeze
    rw [if_neg hne]

theorem freeze_idempotent_witness :
    (1 : Nat) ≤ 3 ∧
      ((Bank.freeze^[3] exampleBank).hash = exampleBank.freeze.hash ∧
        (exampleBank.hash = 0 → exampleBank.freeze.hash = exampleBank.hash_internal_state) ∧
        (exampleBank.hash ≠ 0 → exampleBank.freeze = exampleBank)) :=
  ⟨by norm_num, freeze_idempotent exampleBank 3 (by norm_num)⟩

/-! ## C9: `register_tick` -/

/-- C9: `register_tick` increments `tick_height` by one, registers the
hash into the blockhash queue exactly when the incremented height is the
last tick of the slot, rotates a new status-cache shard exactly when the
incremented height is a multiple of `NUM_TICKS_PER_SECOND`, and leaves
queue and shards unchanged otherwise. -/
theorem register_tick_spec (b : Bank) (h : Hash) (_hts : 0 < b.ticks_per_slot) :
    (b.register_tick h).tick_height = b.tick_height + 1 ∧
    ((b.tick_height + 1) % b.ticks_per_slot = b.ticks_per_slot - 1 →
      (b.register_tick h).blockhash_queue = b.blockhash_queue.register_hash h) ∧
    ((b.tick_height + 1) % b.ticks_per_slot ≠ b.ticks_per_slot - 1 →
      (b.register_tick h).blockhash_queue = b.blockhash_queue) ∧
    ((b.tick_height + 1) % NUM_TICKS_PER_SECOND = 0 →
      (b.register_tick h).status_cache = b.status_cache.new_cache h) ∧
    ((b.tick_height + 1) % NUM_TICKS_PER_SECOND ≠ 0 →
      (b.register_tick h).status_cache = b.status_cache) := by
  unfold Bank.register_tick
  by_cases h1 : (b.tick_height + 1) % b.ticks_per_slot = b.ticks_per_slot - 1 <;>
    by_cases h2 : (b.tick_height + 1) % NUM_TICKS_PER_SECOND = 0 <;>
      simp [h1, h2]

theorem register_tick_spec_witness :
    0 < exampleBank.ticks_per_slot ∧
      ((exampleBank.register_tick 42).tick_height = exampleBank.tick_height + 1 ∧
        ((exampleBank.tick_height + 1) % exampleBank.ticks_per_slot =
            exampleBank.ticks_per_slot - 1 →
          (exampleBank.register_tick 42).blockhash_queue =
            exampleBank.blockhash_queue.register_hash 42) ∧
        ((exampleBank.tick_height + 1) % exampleBank.ticks_per_slot ≠
            exampleBank.ticks_per_slot - 1 →
          (exampleBank.register_tick 42).blockhash_queue = exampleBank.blockhash_queue) ∧
        ((exampleBank.tick_height + 1) % NUM_TICKS_PER_SECOND = 0 →
          (exampleBank.register_tick 42).status_cache =
            exampleBank.status_cache.new_cache 42) ∧
        ((exampleBank.tick_height + 1) % NUM_TICKS_PER_SECOND ≠ 0 →
          (exampleBank.register_tick 42).status_cache = exampleBank.status_cache)) :=
  ⟨by norm_num [exampleBank], register_tick_spec exampleBank 42 (by norm_num [exampleBank])⟩

/-! ## C1: the status-recording policy of `update_transaction_statuses` -/

theorem add_has (sc : StatusCache) (s sig : Signature) :
    (sc.add s).has_signature sig = true ↔
      sig = s ∨ sc.has_signature sig = true := by
  cases hsh : sc.shards with
  | nil => simp [StatusCache.add, StatusCache.has_signature, hsh]
  | cons hd tl =>
    simp [StatusCache.add, StatusCache.has_signature, hsh, List.mem_cons, or_assoc]

theorem save_has (sc : StatusCache) (s sig : Signature) (e : TransactionError) :
    (sc.save_failure_status s e).has_signature sig = sc.has_signature sig := rfl

theorem add_failures (sc : StatusCache) (s : Signature) :
    (sc.add s).failures = sc.failures := by
  unfold StatusCache.add
  cases h : sc.shards <;> rfl

theorem recordTxStatus_ok_cons (sc : StatusCache) (tx : Transaction)
    (sig0 : Signature) (rest : List Signature) (htx : tx.signatures = sig0 :: rest) :
    recordTxStatus sc tx .ok = sc.add sig0 := by
  unfold recordTxStatus
  rw [htx]

theorem recordTxStatus_err_recordable (sc : StatusCache) (tx : Transaction)
    (e : TransactionError) (sig0 : Signature) (rest : List Signature)
    (htx : tx.signatures = sig0 :: rest) (hrec : recordable (.err e) = true) :
    recordTxStatus sc tx (.err e) = (sc.add sig0).save_failure_status sig0 e := by
  cases e <;> simp [recordable] at hrec <;> (unfold recordTxStatus; rw [htx])

theorem recordTxStatus_not_recordable (sc : StatusCache) (tx : Transaction)
    (r : TxResult) (hrec : recordable r = false) :
    recordTxStatus sc tx r = sc := by
  cases r with
  | ok => simp [recordable] at hrec
  | err e =>
    cases e <;> simp [recordable] at hrec <;>
      (cases htx : tx.signatures <;> (unfold recordTxStatus; rw [htx]))

theorem recordTxStatus_nil (sc : StatusCache) (tx : Transaction) (r : TxResult)
    (htx : tx.signatures = []) : recordTxStatus sc tx r = sc := by
  cases r with
  | ok => unfold recordTxStatus; rw [htx]
  | err e => cases e <;> (unfold recordTxStatus; rw [htx])

theorem recordTxStatus_has (sc : StatusCache) (tx : Transaction) (r : TxResult)
    (sig : Signature) :
    (recordTxStatus sc tx r).has_signature sig = true ↔
      sc.has_signature sig = true ∨
        (tx.signatures.head? = some sig ∧ recordable r = true) := by
  by_cases hrec : recordable r = true
  · cases htx : tx.signatures with
    | nil =>
      rw [recordTxStatus_nil sc tx r htx]
      simp
    | cons s rest =>
      have hshape : (recordTxStatus sc tx r).has_signature sig = true ↔
          sig = s ∨ sc.has_signature sig = true := by
        cases r with
        | ok => rw [recordTxStatus_ok_cons sc tx s rest htx, add_has]
        | err e =>
          rw [recordTxStatus_err_recordable sc tx e s rest htx hrec, save_has, add_has]
      rw [hshape]
      simp only [List.head?_cons, Option.some.injEq, hrec, and_true]
      constructor
      · rintro (h | h)
        exacts [Or.inr h.symm, Or.inl h]
      · rintro (h | h)
        exacts [Or.inr h, Or.inl h.symm]
  · have hrec' : recordable r = false := by
      revert hrec
      cases recordable r <;> simp
    rw [recordTxStatus_not_recordable sc tx r hrec', hrec']
    simp

theorem status_after_record_err (sc : StatusCache) (sig0 : Signature)
    (e : TransactionError) :
    ((sc.add sig0).save_failure_status sig0 e).get_signature_status sig0 =
      some (.err e) := by
  have hhas : ((sc.add sig0).save_failure_status sig0 e).has_signature sig0 = true := by
    rw [save_has]
    exact (add_has sc sig0 sig0).2 (Or.inl rfl)
  have hfail : ((sc.add sig0).save_failure_status sig0 e).failures =
      (sig0, e) :: (sc.add sig0).failures := rfl
  simp [StatusCache.get_signature_status, hhas, hfail, List.lookup]

theorem status_after_record_ok (sc : StatusCache) (sig0 : Signature)
    (hlook : sc.failures.lookup sig0 = none) :
    (sc.add sig0).get_signature_status sig0 = some .ok := by
  have hhas : (sc.add sig0).has_signature sig0 = true :=
    (add_has sc sig0 sig0).2 (Or.inl rfl)
  simp [StatusCache.get_signature_status, hhas, add_failures, hlook]

theorem foldl_record_has (l : List (Transaction × TxResult)) (sc : StatusCache)
    (sig : Signature) :
    ((l.foldl (fun sc p => recordTxStatus sc p.1 p.2) sc).has_signature sig = true) ↔
      sc.has_signature sig = true ∨
        ∃ p ∈ l, p.1.signatures.head? = some sig ∧ recordable p.2 = true := by
  induction l generalizing sc with
  | nil => simp
  | cons hd tl ih =>
    rw [List.foldl_cons, ih, recordTxStatus_has]
    simp only [List.mem_cons]
    constructor
    · rintro (⟨h | h⟩ | ⟨p, hp, h⟩)
      · exact Or.inl h
      · exact Or.inr ⟨hd, Or.inl rfl, h⟩
      · exact Or.inr ⟨p, Or.inr hp, h⟩
    · rintro (h | ⟨p, hp | hp, h⟩)
      · exact Or.inl (Or.inl h)
      · exact Or.inl (Or.inr (hp ▸ h))
      · exact Or.inr ⟨p, hp, h⟩

/-- C1: in every committed batch, a transaction's first signature is in the
cache afterwards iff it was already there or the transaction got past the
lock/age/duplicate checks (`recordable`: its result is neither
`BlockhashNotFound` nor `DuplicateSignature` nor `AccountNotFound`); a
non-recordable result changes nothing; a recordable failure is recorded
together with its failure value; a success with a nonempty signature list
is recorded with success. -/
theorem update_transaction_statuses_policy
    (b : Bank) (txs : List Transaction) (res : List TxResult) (sig : Signature)
    (tx : Transaction) (r : TxResult) (e : TransactionError) (sig0 : Signature) :
    (((b.update_transaction_statuses txs res).status_cache.has_signature sig = true) ↔
      b.status_cache.has_signature sig = true ∨
        ∃ p ∈ txs.zip res, p.1.signatures.head? = some sig ∧ recordable p.2 = true) ∧
    (recordable r = false → b.update_transaction_statuses [tx] [r] = b) ∧
    (tx.signatures.head? = some sig0 → recordable (.err e) = true →
      (b.update_transaction_statuses [tx] [.err e]).get_signature_status sig0 =
        some (.err e)) ∧
    (tx.signatures.head? = some sig0 → b.status_cache.failures.lookup sig0 = none →
      (b.update_transaction_statuses [tx] [.ok]).get_signature_status sig0 = some .ok) := by
  refine ⟨?_, ?_, ?_, ?_⟩
  · exact foldl_record_has (txs.zip res) b.status_cache sig
  · intro hrec
    have hr : recordTxStatus b.status_cache tx r = b.status_cache :=
      recordTxStatus_not_recordable b.status_cache tx r hrec
    show ({ b with status_cache :=
        [(tx, r)].foldl (fun sc p => recordTxStatus sc p.1 p.2) b.status_cache } : Bank) = b
    rw [List.foldl_cons, List.foldl_nil, hr]
  · intro hsig hrec
    obtain ⟨rest, htx⟩ : ∃ rest, tx.signatures = sig0 :: rest := by
      cases htx : tx.signatures with
      | nil => rw [htx] at hsig; simp at hsig
      | cons a l => rw [htx] at hsig; simp at hsig; exact ⟨l, by rw [hsig]⟩
    have hsc : (b.update_transaction_statuses [tx] [.err e]).status_cache =
        recordTxStatus b.status_cache tx (.err e) := rfl
    simp only [Bank.get_signature_status, hsc,
      recordTxStatus_err_recordable b.status_cache tx e sig0 rest htx hrec,
      status_after_record_err]
  · intro hsig hlook
    obtain ⟨rest, htx⟩ : ∃ rest, tx.signatures = sig0 :: rest := by
      cases htx : tx.signatures with
      | nil => rw [htx] at hsig; simp at hsig
      | cons a l => rw [htx] at hsig; simp at hsig; exact ⟨l, by rw [hsig]⟩
    have hsc : (b.update_transaction_statuses [tx] [.ok]).status_cache =
        recordTxStatus b.status_cache tx .ok := rfl
    simp only [Bank.get_signature_status, hsc,
      recordTxStatus_ok_cons b.status_cache tx sig0 rest htx,
      status_after_record_ok b.status_cache sig0 hlook]

theorem update_transaction_statuses_policy_witness :
    (exampleBank.update_transaction_statuses [exampleTx] [.err .BlockhashNotFound]
        = exampleBank) ∧
      ((exampleBank.update_transaction_statuses [exampleTx] [.err .AccountInUse]
          ).get_signature_status 9 = some (.err .AccountInUse)) ∧
      ((exampleBank.update_transaction_statuses [exampleTx] [.ok]
          ).get_signature_status 9 = some .ok) :=
  ⟨(update_transaction_statuses_policy exampleBank [] [] 0 exampleTx
      (.err .BlockhashNotFound) .AccountInUse 9).2.1 rfl,
    (update_transaction_statuses_policy exampleBank [] [] 0 exampleTx
      (.err .BlockhashNotFound) .AccountInUse 9).2.2.1 rfl rfl,
    (update_transaction_statuses_policy exampleBank [] [] 0 exampleTx
      (.err .BlockhashNotFound) .AccountInUse 9).2.2.2 rfl rfl⟩

/-! ## C2 / C3: fee collection on `InstructionError` -/

theorem get_balance_eq_getD (b : Bank) (pk : Pubkey) :
    ((b.get_account pk).getD defaultAccount).lamports = b.get_balance pk := by
  cases h : b.get_account pk <;>
    simp [Bank.get_balance, h, Bank.read_balance, defaultAccount]

/-- The single-transaction instance of
`filter_program_errors_and_collect_fee` on an `InstructionError` result:
withdraw the fee from `account_keys[0]`, then deposit the collected fees
(the fee on success of the withdraw, nothing on its failure) to the
collector. -/
theorem filter_single_instruction_error (b : Bank) (tx : Transaction) (i c : Nat) :
    b.filter_program_errors_and_collect_fee [tx] [.err (.InstructionError i c)] =
      (match b.withdraw (tx.account_keys.headD 0) tx.fee with
        | (.ok, b') => (b'.deposit b'.collector_id tx.fee, [.ok])
        | (.err e, b') => (b'.deposit b'.collector_id 0, [.err e])) := by
  unfold Bank.filter_program_errors_and_collect_fee
  rw [show ([tx].zip [TxResult.err (.InstructionError i c)]) =
        [(tx, TxResult.err (.InstructionError i c))] from rfl]
  unfold filterFeesAux
  cases hw : b.withdraw (tx.account_keys.headD 0) tx.fee with
  | mk r b' =>
    cases r <;> simp [filterFeesAux]

/-- C2 (amended): for a committed transaction with result
`InstructionError` whose fee payer exists with at least the fee and is
distinct from the collector, the collector gains exactly the fee, the fee
payer loses exactly the fee, no other account changes, and the returned
result is `Ok`. -/
theorem fee_invariance_amended (b : Bank) (tx : Transaction) (i c : Nat)
    (payer : Pubkey) (acct : Account)
    (hkeys : tx.account_keys.headD 0 = payer)
    (hacct : b.get_account payer = some acct)
    (hfee : tx.fee ≤ acct.lamports)
    (hne : payer ≠ b.collector_id) :
    (b.filter_program_errors_and_collect_fee [tx]
        [.err (.InstructionError i c)]).1.get_balance b.collector_id =
      b.get_balance b.collector_id + tx.fee ∧
    (b.filter_program_errors_and_collect_fee [tx]
        [.err (.InstructionError i c)]).1.get_balance payer =
      b.get_balance payer - tx.fee ∧
    (∀ k, k ≠ payer → k ≠ b.collector_id →
      (b.filter_program_errors_and_collect_fee [tx]
          [.err (.InstructionError i c)]).1.get_account k = b.get_account k) ∧
    (b.filter_program_errors_and_collect_fee [tx]
        [.err (.InstructionError i c)]).2 = [.ok] := by
  have hnot : ¬ tx.fee > acct.lamports := by omega
  have hw : b.withdraw (tx.account_keys.headD 0) tx.fee = (.ok, { b with accounts := storeAccount b.accounts payer { acct with lamports := acct.lamports - tx.fee } }) := by
    rw [hkeys]
    simp [Bank.withdraw, hacct, hnot]
  rw [filter_single_instruction_error, hw]
  have hpayerbal : b.get_balance payer = acct.lamports := by
    simp [Bank.get_balance, hacct, Bank.read_balance]
  have hcp : b.collector_id ≠ payer := fun hc => hne hc.symm
  refine ⟨?_, ?_, ?_, rfl⟩
  · have h1 : (({ b with accounts := storeAccount b.accounts payer { acct with lamports := acct.lamports - tx.fee } } : Bank).deposit b.collector_id tx.fee).get_balance b.collector_id = ((b.get_account b.collector_id).getD defaultAccount).lamports + tx.fee := by
      simp [Bank.deposit, Bank.get_balance, Bank.get_account, Bank.read_balance,
        storeAccount, hcp]
    rw [h1, get_balance_eq_getD]
  · have h2 : (({ b with accounts := storeAccount b.accounts payer { acct with lamports := acct.lamports - tx.fee } } : Bank).deposit b.collector_id tx.fee).get_balance payer = acct.lamports - tx.fee := by
      simp [Bank.deposit, Bank.get_balance, Bank.get_account, Bank.read_balance,
        storeAccount, hne]
    rw [h2, hpayerbal]
  · intro k hkp hkc
    simp [Bank.deposit, Bank.get_account, storeAccount, hkp, hkc]

theorem fee_invariance_amended_witness :
    exampleTx.account_keys.headD 0 = 5 ∧
      exampleBank.get_account 5 = some { lamports := 7, data := [], owner := 0, executable := false } ∧
      exampleTx.fee ≤ 7 ∧ (5 : Nat) ≠ exampleBank.collector_id ∧
      ((exampleBank.filter_program_errors_and_collect_fee [exampleTx]
          [.err (.InstructionError 0 0)]).1.get_balance exampleBank.collector_id =
        exampleBank.get_balance exampleBank.collector_id + exampleTx.fee ∧
      (exampleBank.filter_program_errors_and_collect_fee [exampleTx]
          [.err (.InstructionError 0 0)]).1.get_balance 5 =
        exampleBank.get_balance 5 - exampleTx.fee ∧
      (∀ k, k ≠ 5 → k ≠ exampleBank.collector_id →
        (exampleBank.filter_program_errors_and_collect_fee [exampleTx]
            [.err (.InstructionError 0 0)]).1.get_account k = exampleBank.get_account k) ∧
      (exampleBank.filter_program_errors_and_collect_fee [exampleTx]
          [.err (.InstructionError 0 0)]).2 = [.ok]) :=
  ⟨rfl, rfl, by norm_num [exampleTx], by norm_num [exampleBank],
    fee_invariance_amended exampleBank exampleTx 0 0 5
      { lamports := 7, data := [], owner := 0, executable := false }
      rfl rfl (by norm_num [exampleTx]) (by norm_num [exampleBank])⟩

/-- C2 counterexample: a transaction with result `InstructionError` whose
fee payer (key 6, balance 0) cannot cover the fee of 1 leaves the
collector's balance unchanged (the claim demands an increase by the fee),
and the returned result is the withdraw failure, not `Ok`. -/
theorem fee_invariance_counterexample :
    (exampleBank.filter_program_errors_and_collect_fee [cexTx]
        [.err (.InstructionError 0 0)]).1.get_balance exampleBank.collector_id =
      exampleBank.get_balance exampleBank.collector_id ∧
    exampleBank.get_balance exampleBank.collector_id + cexTx.fee ≠
      exampleBank.get_balance exampleBank.collector_id ∧
    (exampleBank.filter_program_errors_and_collect_fee [cexTx]
        [.err (.InstructionError 0 0)]).2 = [.err .InsufficientFundsForFee] := by
  refine ⟨rfl, by decide, rfl⟩

/-- C3: for a committed transaction with result `InstructionError` whose
fee payer can cover the fee, `commit_transactions` returns `Ok(())` for
it, while `get_signature_status` on its first signature reports the
recorded `InstructionError` — the returned result and the recorded status
disagree. -/
theorem commit_ok_but_status_instruction_error (b : Bank) (tx : Transaction)
    (i c : Nat) (payer : Pubkey) (acct : Account) (l : Option Loaded)
    (sig0 : Signature)
    (hkeys : tx.account_keys.headD 0 = payer)
    (hsig : tx.signatures.head? = some sig0)
    (hacct : b.get_account payer = some acct)
    (hfee : tx.fee ≤ acct.lamports) :
    (b.commit_transactions [tx] [l] [.err (.InstructionError i c)]).2 = [.ok] ∧
    (b.commit_transactions [tx] [l]
        [.err (.InstructionError i c)]).1.get_signature_status sig0 =
      some (.err (.InstructionError i c)) := by
  obtain ⟨rest, htx⟩ : ∃ rest, tx.signatures = sig0 :: rest := by
    cases htx : tx.signatures with
    | nil => rw [htx] at hsig; simp at hsig
    | cons a as => rw [htx] at hsig; simp at hsig; exact ⟨as, by rw [hsig]⟩
  have hrec : recordTxStatus b.status_cache tx (.err (.InstructionError i c)) =
      (b.status_cache.add sig0).save_failure_status sig0 (.InstructionError i c) :=
    recordTxStatus_err_recordable b.status_cache tx _ sig0 rest htx rfl
  have hcache : ({ b with is_delta := true } : Bank).update_transaction_statuses [tx]
      [.err (.InstructionError i c)] =
      ({ b with is_delta := true, status_cache := (b.status_cache.add sig0).save_failure_status sig0 (.InstructionError i c) } : Bank) := by
    unfold Bank.update_transaction_statuses
    rw [show ([tx].zip [TxResult.err (.InstructionError i c)]) =
          [(tx, TxResult.err (.InstructionError i c))] from rfl,
      List.foldl_cons, List.foldl_nil]
    rw [show ({ b with is_delta := true } : Bank).status_cache = b.status_cache from rfl,
      hrec]
  have hbu : (b.commit_transactions [tx] [l] [.err (.InstructionError i c)]) =
      (({ b with is_delta := true } : Bank).update_transaction_statuses [tx]
        [.err (.InstructionError i c)]).filter_program_errors_and_collect_fee [tx]
        [.err (.InstructionError i c)] := rfl
  rw [hbu, hcache, filter_single_instruction_error]
  have hw : ({ b with is_delta := true, status_cache := (b.status_cache.add sig0).save_failure_status sig0 (.InstructionError i c) } : Bank).withdraw (tx.account_keys.headD 0) tx.fee = (.ok, { b with is_delta := true, status_cache := (b.status_cache.add sig0).save_failure_status sig0 (.InstructionError i c), accounts := storeAccount b.accounts payer { acct with lamports := acct.lamports - tx.fee } }) := by
    unfold Bank.withdraw
    rw [hkeys]
    show (match b.accounts payer with | some account => _ | none => _) = _
    rw [show b.accounts payer = some acct from hacct]
    have hnot : ¬ tx.fee > acct.lamports := by omega
    simp [hnot]
  rw [hw]
  refine ⟨rfl, ?_⟩
  show ((_ : Bank).deposit _ tx.fee).get_signature_status sig0 = _
  simp only [Bank.get_signature_status]
  show ((b.status_cache.add sig0).save_failure_status sig0
      (.InstructionError i c)).get_signature_status sig0 = _
  exact status_after_record_err b.status_cache sig0 (.InstructionError i c)

theorem commit_ok_but_status_instruction_error_witness :
    exampleTx.account_keys.headD 0 = 5 ∧ exampleTx.signatures.head? = some 9 ∧
      exampleBank.get_account 5 = some { lamports := 7, data := [], owner := 0, executable := false } ∧
      exampleTx.fee ≤ 7 ∧
      ((exampleBank.commit_transactions [exampleTx] [none]
          [.err (.InstructionError 0 0)]).2 = [.ok] ∧
        (exampleBank.commit_transactions [exampleTx] [none]
            [.err (.InstructionError 0 0)]).1.get_signature_status 9 =
          some (.err (.InstructionError 0 0))) :=
  ⟨rfl, rfl, rfl, by norm_num [exampleTx],
    commit_ok_but_status_instruction_error exampleBank exampleTx 0 0 5
      { lamports := 7, data := [], owner := 0, executable := false } none 9
      rfl rfl rfl (by norm_num [exampleTx])⟩

/-! ## Bank parent chains (`new_from_parent`, `is_in_subtree_of`)

The parent chain of a bank, carrying the only data the chain claims need:
each bank's slot.  `Arc<Bank>` sharing is immaterial to them. -/

inductive BankChain where
  | root (slot : Nat)
  | child (parent : BankChain) (slot : Nat)
deriving DecidableEq, Repr

def BankChain.slot : BankChain → Nat
  | .root s => s
  | .child _ s => s

/-- `Bank::parent` (`None` at a root). -/
def BankChain.parent : BankChain → Option BankChain
  | .root _ => none
  | .child p _ => some p

/-- `Bank::new_from_parent` (slot linkage): the source freezes the parent,
inherits its state, and `assert_ne!(slot, parent.slot())` — the panic is
modelled as `none`. -/
def BankChain.new_from_parent (parent : BankChain) (slot : Nat) : Option BankChain :=
  if slot = parent.slot then none else some (.child parent slot)

/-- The slots of the strict ancestors, nearest first (what walking
`parents()` reports). -/
def BankChain.ancestorSlots : BankChain → List Nat
  | .root _ => []
  | .child p _ => p.slot :: p.ancestorSlots

/-- The `while let Some(p)` loop of `Bank::is_in_subtree_of`: hit on an
equal slot, give up as soon as a slot drops below the target, otherwise
climb. -/
def subtreeLoop (parent : Nat) : BankChain → Bool
  | .root s => if s = parent then true else false
  | .child pp s =>
      if s = parent then true
      else if s < parent then false
      else subtreeLoop parent pp

/-- `Bank::is_in_subtree_of`. -/
def BankChain.is_in_subtree_of (b : BankChain) (parent : Nat) : Bool :=
  if b.slot = parent then true
  else
    match b with
    | .root _ => false
    | .child pp _ => subtreeLoop parent pp

/-- Slots strictly decrease walking up the chain (the spec's
`slot > parent.slot` invariant, which C7 shows the source does not
enforce). -/
def BankChain.chainDecreasing : BankChain → Bool
  | .root _ => true
  | .child p s => decide (p.slot < s) && p.chainDecreasing

/-! ## C7: `new_from_parent` slot ordering -/

/-- C7 counterexample: `new_from_parent` only asserts the slots differ, so
a child with slot 3 under a parent at slot 5 is built successfully and
violates `slot > parent.slot`. -/
theorem new_from_parent_slot_gt_counterexample :
    BankChain.new_from_parent (.root 5) 3 = some (.child (.root 5) 3) ∧
    ¬ (BankChain.child (.root 5) 3).slot > (BankChain.root 5).slot := by decide

/-- C7 (amended): every bank produced by `new_from_parent` has a slot
different from its parent's (the source's `assert_ne!`), and points to
that parent; construction fails exactly when the slots are equal. -/
theorem new_from_parent_slot_ne (parent : BankChain) (slot : Nat) (b : BankChain)
    (h : BankChain.new_from_parent parent slot = some b) :
    b.slot ≠ parent.slot ∧ b.parent = some parent := by
  unfold BankChain.new_from_parent at h
  by_cases hs : slot = parent.slot
  · rw [if_pos hs] at h
    cases h
  · rw [if_neg hs] at h
    cases h
    exact ⟨hs, rfl⟩

theorem new_from_parent_slot_ne_witness :
    BankChain.new_from_parent (.root 5) 7 = some (.child (.root 5) 7) ∧
      ((BankChain.child (.root 5) 7).slot ≠ (BankChain.root 5).slot ∧
        (BankChain.child (.root 5) 7).parent = some (.root 5)) :=
  ⟨rfl, new_from_parent_slot_ne (.root 5) 7 (.child (.root 5) 7) rfl⟩

/-! ## C8: `is_in_subtree_of` -/

theorem ancestorSlots_lt (c : BankChain) (hdec : c.chainDecreasing = true) :
    ∀ q ∈ c.ancestorSlots, q < c.slot := by
  induction c with
  | root s => intro q hq; simp [BankChain.ancestorSlots] at hq
  | child p s ih =>
    intro q hq
    simp only [BankChain.chainDecreasing, Bool.and_eq_true, decide_eq_true_eq] at hdec
    simp only [BankChain.ancestorSlots, List.mem_cons] at hq
    rcases hq with rfl | hq
    · exact hdec.1
    · exact lt_trans (ih hdec.2 q hq) hdec.1

theorem BankChain.slot_root (s : Nat) : (BankChain.root s).slot = s := rfl

theorem BankChain.slot_child (p : BankChain) (s : Nat) :
    (BankChain.child p s).slot = s := rfl

theorem subtreeLoop_iff (p : Nat) (c : BankChain) (hdec : c.chainDecreasing = true) :
    subtreeLoop p c = true ↔ p = c.slot ∨ p ∈ c.ancestorSlots := by
  induction c with
  | root s =>
    simp only [subtreeLoop, BankChain.slot_root, BankChain.ancestorSlots,
      List.not_mem_nil, or_false]
    by_cases hs : s = p
    · simp [hs]
    · rw [if_neg hs]
      constructor
      · intro hc; simp at hc
      · intro hc; exact absurd hc.symm hs
  | child pp s ih =>
    simp only [BankChain.chainDecreasing, Bool.and_eq_true, decide_eq_true_eq] at hdec
    simp only [subtreeLoop, BankChain.slot_child, BankChain.ancestorSlots]
    by_cases hs : s = p
    · simp [hs]
    · rw [if_neg hs]
      by_cases hlt : s < p
      · rw [if_pos hlt]
        constructor
        · intro hc; simp at hc
        · rintro (hc | hmem)
          · exact absurd hc.symm hs
          · rcases List.mem_cons.1 hmem with heq | hmem
            · have hps : p < s := by rw [heq]; exact hdec.1
              exact absurd hps (by omega)
            · have hq := ancestorSlots_lt pp hdec.2 p hmem
              exact absurd hq (by omega)
      · rw [if_neg hlt, ih hdec.2]
        constructor
        · rintro (h | h)
          · exact Or.inr (List.mem_cons.2 (Or.inl h))
          · exact Or.inr (List.mem_cons.2 (Or.inr h))
        · rintro (hc | hmem)
          · exact absurd hc.symm hs
          · rcases List.mem_cons.1 hmem with heq | hmem
            · exact Or.inl heq
            · exact Or.inr hmem

/-- C8 counterexample: the chain built by `new_from_parent` with slots
10 → 2 → 7 (each step only requires inequality) makes `is_in_subtree_of 7`
short-circuit at the ancestor with slot 2 and answer `false`, although 7
is an ancestor's slot. -/
theorem is_in_subtree_of_counterexample :
    BankChain.new_from_parent (.root 7) 2 = some (.child (.root 7) 2) ∧
    BankChain.new_from_parent (.child (.root 7) 2) 10 =
      some (.child (.child (.root 7) 2) 10) ∧
    (BankChain.child (.child (.root 7) 2) 10).is_in_subtree_of 7 = false ∧
    7 ∈ (BankChain.child (.child (.root 7) 2) 10).ancestorSlots := by decide

/-- C8 (amended): for every bank whose parent chain has strictly
decreasing slots (the intended fork invariant), `is_in_subtree_of p`
returns true iff `p` is the bank's own slot or some ancestor's slot. -/
theorem is_in_subtree_of_iff (b : BankChain) (p : Nat)
    (hdec : b.chainDecreasing = true) :
    b.is_in_subtree_of p = true ↔ p = b.slot ∨ p ∈ b.ancestorSlots := by
  cases b with
  | root s =>
    unfold BankChain.is_in_subtree_of
    by_cases hs : s = p
    · rw [BankChain.slot_root, if_pos hs]
      constructor
      · intro _; exact Or.inl hs.symm
      · intro _; rfl
    · rw [BankChain.slot_root, if_neg hs]
      constructor
      · intro hc; simp at hc
      · rintro (hc | hmem)
        · exact absurd hc.symm hs
        · simp [BankChain.ancestorSlots] at hmem
  | child pp s =>
    simp only [BankChain.chainDecreasing, Bool.and_eq_true, decide_eq_true_eq] at hdec
    unfold BankChain.is_in_subtree_of
    by_cases hs : s = p
    · rw [BankChain.slot_child, if_pos hs]
      constructor
      · intro _; exact Or.inl hs.symm
      · intro _; rfl
    · rw [BankChain.slot_child, if_neg hs]
      show subtreeLoop p pp = true ↔ _
      rw [subtreeLoop_iff p pp hdec.2]
      show _ ↔ p = s ∨ p ∈ pp.slot :: pp.ancestorSlots
      constructor
      · rintro (h | h)
        · exact Or.inr (List.mem_cons.2 (Or.inl h))
        · exact Or.inr (List.mem_cons.2 (Or.inr h))
      · rintro (hc | hmem)
        · exact absurd hc.symm hs
        · rcases List.mem_cons.1 hmem with heq | hmem
          · exact Or.inl heq
          · exact Or.inr hmem

theorem is_in_subtree_of_iff_witness :
    (BankChain.child (.child (.root 1) 4) 9).chainDecreasing = true ∧
      ((BankChain.child (.child (.root 1) 4) 9).is_in_subtree_of 4 = true ↔
        4 = (BankChain.child (.child (.root 1) 4) 9).slot ∨
          4 ∈ (BankChain.child (.child (.root 1) 4) 9).ancestorSlots) :=
  ⟨by decide, is_in_subtree_of_iff (.child (.child (.root 1) 4) 9) 4 (by decide)⟩

end SolanaBank
